import Mathlib

/-!
Shallow embedding of `internal/request/request.go` from erespereza/new-project.

The file models, faithfully to the Go source:
  * the standard-library parsers the code calls (`strconv.Atoi`,
    `strconv.ParseFloat` success/failure, `strconv.ParseBool`),
  * the typed query map built by `Request.ParseQuery`,
  * the fail-fast pipeline `Request.Validate`, with the black-box
    collaborators (JSON decoding, the two lifecycle hooks, the rule
    validator) represented by their outcomes, and with the observable
    effects (body read, body close, which stages ran) recorded explicitly.
-/

/-- Model of Go `strconv.Atoi` (= `ParseInt(s, 10, 64)` on a 64-bit platform):
an optional single sign followed by one or more decimal digits, the whole
string consumed, value within the signed 64-bit range; `none` on any
syntax error or overflow. Digit-separator underscores are rejected by
`ParseInt` when the base is given explicitly, as here. -/
def digitsToNat : List Char → Option Nat
  | [] => some 0
  | c :: r =>
    if c.isDigit then
      match digitsToNat r with
      | some n => some ((c.toNat - '0'.toNat) * 10 ^ r.length + n)
      | none => none
    else none

def goAtoi (s : String) : Option Int :=
  let (neg, ds) :=
    match s.data with
    | '-' :: r => (true, r)
    | '+' :: r => (false, r)
    | r => (false, r)
  if ds.isEmpty then none
  else
    match digitsToNat ds with
    | none => none
    | some n =>
      if neg then
        if n ≤ 2 ^ 63 then some (-(n : Int)) else none
      else
        if n ≤ 2 ^ 63 - 1 then some (n : Int) else none

/-- Model of Go `strconv.ParseBool`: exactly the twelve accepted spellings,
mapped to their boolean value; every other string is an error (`none`). -/
def goParseBool (s : String) : Option Bool :=
  if s = "1" ∨ s = "t" ∨ s = "T" ∨ s = "TRUE" ∨ s = "true" ∨ s = "True" then some true
  else if s = "0" ∨ s = "f" ∨ s = "F" ∨ s = "FALSE" ∨ s = "false" ∨ s = "False" then some false
  else none

/-- Longest leading run of decimal digits, and the rest. -/
def spanDigits : List Char → List Char × List Char
  | [] => ([], [])
  | c :: r =>
    if c.isDigit then
      let (a, b) := spanDigits r
      (c :: a, b)
    else ([], c :: r)

/-- Hexadecimal digit test. -/
def isHexDigitChar (c : Char) : Bool :=
  c.isDigit || ('a' ≤ c && c ≤ 'f') || ('A' ≤ c && c ≤ 'F')

/-- Longest leading run of hexadecimal digits, and the rest. -/
def spanHexDigits : List Char → List Char × List Char
  | [] => ([], [])
  | c :: r =>
    if isHexDigitChar c then
      let (a, b) := spanHexDigits r
      (c :: a, b)
    else ([], c :: r)

/-- Exponent part after the `e`/`E` (or `p`/`P`) marker: an optional sign
then one or more decimal digits, consuming the rest of the input. -/
def expAccepts (l : List Char) : Bool :=
  let r :=
    match l with
    | '+' :: r => r
    | '-' :: r => r
    | r => r
  let (d, rest) := spanDigits r
  ¬d.isEmpty ∧ rest.isEmpty

/-- Decimal mantissa with optional fraction and optional exponent:
`digits [. digits] [e|E exp]`, at least one digit in the mantissa,
the whole input consumed. -/
def decAccepts (l : List Char) : Bool :=
  let (d1, r1) := spanDigits l
  let (d2, r2) :=
    match r1 with
    | '.' :: r => spanDigits r
    | _ => ([], r1)
  if d1.isEmpty ∧ d2.isEmpty then false
  else
    match r2 with
    | [] => true
    | e :: r3 => if e = 'e' ∨ e = 'E' then expAccepts r3 else false

/-- Hexadecimal mantissa (after the `0x`/`0X`) with optional fraction and a
mandatory binary exponent: `hexdigits [. hexdigits] p|P exp`. -/
def hexAccepts (l : List Char) : Bool :=
  let (d1, r1) := spanHexDigits l
  let (d2, r2) :=
    match r1 with
    | '.' :: r => spanHexDigits r
    | _ => ([], r1)
  if d1.isEmpty ∧ d2.isEmpty then false
  else
    match r2 with
    | p :: r3 => if p = 'p' ∨ p = 'P' then expAccepts r3 else false
    | [] => false

/-- ASCII lower-casing of one character, as Go's case-insensitive prefix
match does it (adding the 0x20 bit to an upper-case letter). -/
def lowerChar (c : Char) : Char :=
  if 'A' ≤ c ∧ c ≤ 'Z' then Char.ofNat (c.toNat + 32) else c

/-- Case-insensitive special float spellings of Go `strconv.ParseFloat`:
an optional sign followed by `inf` or `infinity`, or an unsigned `nan`
(Go's `special` reaches the NaN check only when no sign was read). -/
def floatSpecial (s : String) : Bool :=
  let (hadSign, r) :=
    match s.data with
    | '+' :: r => (true, r)
    | '-' :: r => (true, r)
    | r => (false, r)
  let rl := r.map lowerChar
  rl = ['i', 'n', 'f'] ∨ rl = ['i', 'n', 'f', 'i', 'n', 'i', 't', 'y'] ∨
    (¬hadSign ∧ rl = ['n', 'a', 'n'])

/-- Model of the success/failure of Go `strconv.ParseFloat(s, 64)`: special
spellings, or an optionally signed decimal or hexadecimal floating-point
literal. Digit-separator underscores and the out-of-range (`ErrRange`)
rejection are not modelled; no claim below exercises them. -/
def goParseFloatAccepts (s : String) : Bool :=
  if floatSpecial s then true
  else
    let r :=
      match s.data with
      | '+' :: r => r
      | '-' :: r => r
      | r => r
    match r with
    | '0' :: x :: rest =>
      if x = 'x' ∨ x = 'X' then hexAccepts rest else decAccepts r
    | _ => decAccepts r

/-- Typed variant stored in `Request.Query` (`map[string]any` in the source,
holding an `int`, `float64`, `bool` or `string`). The float variant keeps
the raw accepted literal; no claim inspects the numeric value of a float. -/
inductive QueryValue where
  | int (n : Int)
  | float (raw : String)
  | bool (b : Bool)
  | str (s : String)
deriving DecidableEq

/-- The `Query map[string]any` field, as an association list with unique
keys maintained by in-place overwrite. -/
abbrev QMap := List (String × QueryValue)

/-- Go map assignment `m[k] = v`: overwrite in place if the key is present,
otherwise append the new binding. -/
def qInsert (m : QMap) (k : String) (v : QueryValue) : QMap :=
  match m with
  | [] => [(k, v)]
  | (k2, v2) :: rest => if k2 = k then (k, v) :: rest else (k2, v2) :: qInsert rest k v

/-- Go map read `m[k]`. -/
def qLookup (m : QMap) (k : String) : Option QueryValue :=
  match m with
  | [] => none
  | (k2, v2) :: rest => if k2 = k then some v2 else qLookup rest k

/-- One entry of `req.URL.Query()`: a key with its first raw value and the
remaining values. `url.Values` never maps a key to an empty slice, so the
first value (the only one the code reads, `values[0]`) is explicit. -/
structure RawParam where
  key : String
  firstValue : String
  restValues : List String
deriving DecidableEq

/-- The parts of `*http.Request` the code consumes: the query parameters and
the outcome of `io.ReadAll(req.Body)` (`none` models a read fault, `some`
carries the body bytes). -/
structure HttpRequest where
  params : List RawParam
  readResult : Option String

/-- Per-value type inference of `ParseQuery`: try `strconv.Atoi`, then
`strconv.ParseFloat`, then `strconv.ParseBool`, and fall back to the raw
string. Mirrors the if/else-if chain of the source. -/
def inferValue (value : String) : QueryValue :=
  match goAtoi value with
  | some intValue => .int intValue
  | none =>
    if goParseFloatAccepts value then .float value
    else
      match goParseBool value with
      | some boolValue => .bool boolValue
      | none => .str value

/-- The loop body of `ParseQuery`, over the list of query parameters:
for each key, infer the type of its first value and assign it into the map. -/
def applyParams (ps : List RawParam) (m : QMap) : QMap :=
  match ps with
  | [] => m
  | p :: rest => applyParams rest (qInsert m p.key (inferValue p.firstValue))

/-- Model of `Request.ParseQuery`: the receiver's `Query` map (`none` models
a nil map, initialized to an empty map first), then the per-key inference
loop over `req.URL.Query()`. Returns the receiver's final `Query` map. -/
def ParseQuery (q : Option QMap) (req : HttpRequest) : QMap :=
  let m := match q with | none => ([] : QMap) | some m0 => m0
  applyParams req.params m

/-- Error kinds of the pipeline, one per return site of `Validate`: the
reflect check's error, the `io.ReadAll` error, the `json.Unmarshal` error,
the two hook errors, and the rule validator's error. The Go code returns
each collaborator's error verbatim; the kind records which stage produced
it. -/
inductive VErr where
  | invalidTarget
  | ioError
  | decodeError
  | prepareError
  | hookError
  | validationError
deriving DecidableEq

/-- Behaviour of the target passed to `Validate`, with the black-box
collaborators replaced by their outcomes: the reflect facts about the
target value, whether `json.Unmarshal(body, request)` returns nil for a
given body, and whether each of `PrepareForValidation`, `WithValidator`
and `validation.Struct(request, request.Rules())` returns nil. -/
structure TargetBehavior where
  isPtr : Bool
  isNil : Bool
  unmarshalOk : String → Bool
  prepareOk : Bool
  hookOk : Bool
  rulesOk : Bool

/-- Observable outcome of one `Validate` invocation: the returned error (or
`none` on success), whether the body was read, whether the body stream was
closed before returning, which later stages ran, whether the receiver's
`Query` field was assigned, and the receiver's final `Query` state. -/
structure VResult where
  err : Option VErr
  bodyWasRead : Bool
  bodyClosed : Bool
  prepareRan : Bool
  hookRan : Bool
  validateRan : Bool
  queryAssigned : Bool
  finalQuery : Option QMap
deriving DecidableEq

/-- Model of `Request.Validate`, one record per return site of the Go
function, in source order. `Validate` is invoked through method promotion,
so the receiver is the embedded `Request` of the target entity: `q0` is
the target's embedded `Query` field on entry, `finalQuery` its state on
return. `req.Body.Close()` is deferred only after the `io.ReadAll` error
check, so `bodyClosed` is true exactly on the paths reached past a
successful read. -/
def Validate (tb : TargetBehavior) (req : HttpRequest) (q0 : Option QMap) : VResult :=
  if !tb.isPtr || tb.isNil then
    ⟨some .invalidTarget, false, false, false, false, false, false, q0⟩
  else
    match req.readResult with
    | none =>
      ⟨some .ioError, true, false, false, false, false, false, q0⟩
    | some body =>
      if !tb.unmarshalOk body then
        ⟨some .decodeError, true, true, false, false, false, false, q0⟩
      else if !tb.prepareOk then
        ⟨some .prepareError, true, true, true, false, false, false, q0⟩
      else if !tb.hookOk then
        ⟨some .hookError, true, true, true, true, false, false, q0⟩
      else if !tb.rulesOk then
        ⟨some .validationError, true, true, true, true, true, false, q0⟩
      else
        ⟨none, true, true, true, true, true, true, some (ParseQuery q0 req)⟩

/-- Claim C6: a call to `Validate` whose target is not a non-nil pointer
returns the invalid-target error and does not read the request body. -/
theorem validate_invalid_target (tb : TargetBehavior) (req : HttpRequest) (q0 : Option QMap)
    (h : tb.isPtr = false ∨ tb.isNil = true) :
    (Validate tb req q0).err = some VErr.invalidTarget ∧
    (Validate tb req q0).bodyWasRead = false := by
  have hc : (!tb.isPtr || tb.isNil) = true := by
    rcases h with h | h <;> simp [h]
  simp [Validate, hc]

/-- Witness for C6 at a concrete nil-pointer target. -/
theorem validate_invalid_target_witness :
    (Validate ⟨true, true, fun _ => true, true, true, true⟩ ⟨[], some ""⟩ none).err
        = some VErr.invalidTarget ∧
    (Validate ⟨true, true, fun _ => true, true, true, true⟩ ⟨[], some ""⟩ none).bodyWasRead
        = false :=
  validate_invalid_target _ _ _ (Or.inr rfl)

/-- Claim C7: a call to `Validate` whose body fails to deserialize
(`json.Unmarshal` returns an error) returns the decode error, and neither
`PrepareForValidation` nor any later stage runs. -/
theorem validate_decode_error (tb : TargetBehavior) (req : HttpRequest) (q0 : Option QMap)
    (body : String)
    (h1 : tb.isPtr = true) (h2 : tb.isNil = false)
    (h3 : req.readResult = some body) (h4 : tb.unmarshalOk body = false) :
    (Validate tb req q0).err = some VErr.decodeError ∧
    (Validate tb req q0).prepareRan = false ∧
    (Validate tb req q0).hookRan = false ∧
    (Validate tb req q0).validateRan = false ∧
    (Validate tb req q0).queryAssigned = false := by
  simp [Validate, h1, h2, h3, h4]

/-- Witness for C7 at a concrete malformed body. -/
theorem validate_decode_error_witness :
    (Validate ⟨true, false, fun _ => false, true, true, true⟩ ⟨[], some "nj"⟩ none).err
        = some VErr.decodeError ∧
    (Validate ⟨true, false, fun _ => false, true, true, true⟩ ⟨[], some "nj"⟩ none).prepareRan
        = false ∧
    (Validate ⟨true, false, fun _ => false, true, true, true⟩ ⟨[], some "nj"⟩ none).hookRan
        = false ∧
    (Validate ⟨true, false, fun _ => false, true, true, true⟩ ⟨[], some "nj"⟩ none).validateRan
        = false ∧
    (Validate ⟨true, false, fun _ => false, true, true, true⟩ ⟨[], some "nj"⟩ none).queryAssigned
        = false :=
  validate_decode_error _ _ _ "nj" rfl rfl rfl rfl

/-- Claim C2: when all six earlier stages succeed, `Validate` runs the query
type inferencer on the request's query parameters, assigns the result into
the receiver's (the target's embedded) `Query` field, and returns nil. -/
theorem validate_success (tb : TargetBehavior) (req : HttpRequest) (q0 : Option QMap)
    (body : String)
    (h1 : tb.isPtr = true) (h2 : tb.isNil = false)
    (h3 : req.readResult = some body) (h4 : tb.unmarshalOk body = true)
    (h5 : tb.prepareOk = true) (h6 : tb.hookOk = true) (h7 : tb.rulesOk = true) :
    (Validate tb req q0).err = none ∧
    (Validate tb req q0).queryAssigned = true ∧
    (Validate tb req q0).finalQuery = some (ParseQuery q0 req) := by
  simp [Validate, h1, h2, h3, h4, h5, h6, h7]

/-- Witness for C2 at a concrete all-stages-succeed invocation. -/
theorem validate_success_witness :
    (Validate ⟨true, false, fun _ => true, true, true, true⟩
        ⟨[⟨"age", "30", []⟩], some "{}"⟩ none).err = none ∧
    (Validate ⟨true, false, fun _ => true, true, true, true⟩
        ⟨[⟨"age", "30", []⟩], some "{}"⟩ none).queryAssigned = true ∧
    (Validate ⟨true, false, fun _ => true, true, true, true⟩
        ⟨[⟨"age", "30", []⟩], some "{}"⟩ none).finalQuery
        = some (ParseQuery none ⟨[⟨"age", "30", []⟩], some "{}"⟩) :=
  validate_success _ _ _ "{}" rfl rfl rfl rfl rfl rfl rfl

/-- Claim C3: whenever `Validate` returns a non-nil error, no stage after the
failing one ran; in particular the `Query` field is never assigned and keeps
its entry state. -/
theorem validate_failfast (tb : TargetBehavior) (req : HttpRequest) (q0 : Option QMap)
    (e : VErr) (h : (Validate tb req q0).err = some e) :
    (Validate tb req q0).queryAssigned = false ∧
    (Validate tb req q0).finalQuery = q0 ∧
    (e = VErr.invalidTarget →
      (Validate tb req q0).bodyWasRead = false ∧
      (Validate tb req q0).prepareRan = false ∧
      (Validate tb req q0).hookRan = false ∧
      (Validate tb req q0).validateRan = false) ∧
    ((e = VErr.ioError ∨ e = VErr.decodeError) →
      (Validate tb req q0).prepareRan = false ∧
      (Validate tb req q0).hookRan = false ∧
      (Validate tb req q0).validateRan = false) ∧
    (e = VErr.prepareError →
      (Validate tb req q0).hookRan = false ∧
      (Validate tb req q0).validateRan = false) ∧
    (e = VErr.hookError → (Validate tb req q0).validateRan = false) := by
  rcases tb with ⟨isPtr, isNil, uOk, pOk, hOk, rOk⟩
  rcases req with ⟨params, readResult⟩
  rcases readResult with _ | body
  all_goals cases isPtr
  all_goals cases isNil
  all_goals try cases hu : uOk body
  all_goals try cases pOk
  all_goals try cases hOk
  all_goals try cases rOk
  all_goals try simp_all [Validate]
  all_goals try subst h
  all_goals decide

/-- Witness for C3 at a concrete rule-validation failure. -/
theorem validate_failfast_witness :
    (Validate ⟨true, false, fun _ => true, true, true, false⟩ ⟨[], some "{}"⟩ none).queryAssigned
        = false ∧
    (Validate ⟨true, false, fun _ => true, true, true, false⟩ ⟨[], some "{}"⟩ none).finalQuery
        = none ∧
    (VErr.validationError = VErr.invalidTarget →
      (Validate ⟨true, false, fun _ => true, true, true, false⟩ ⟨[], some "{}"⟩ none).bodyWasRead
          = false ∧
      (Validate ⟨true, false, fun _ => true, true, true, false⟩ ⟨[], some "{}"⟩ none).prepareRan
          = false ∧
      (Validate ⟨true, false, fun _ => true, true, true, false⟩ ⟨[], some "{}"⟩ none).hookRan
          = false ∧
      (Validate ⟨true, false, fun _ => true, true, true, false⟩ ⟨[], some "{}"⟩ none).validateRan
          = false) ∧
    ((VErr.validationError = VErr.ioError ∨ VErr.validationError = VErr.decodeError) →
      (Validate ⟨true, false, fun _ => true, true, true, false⟩ ⟨[], some "{}"⟩ none).prepareRan
          = false ∧
      (Validate ⟨true, false, fun _ => true, true, true, false⟩ ⟨[], some "{}"⟩ none).hookRan
          = false ∧
      (Validate ⟨true, false, fun _ => true, true, true, false⟩ ⟨[], some "{}"⟩ none).validateRan
          = false) ∧
    (VErr.validationError = VErr.prepareError →
      (Validate ⟨true, false, fun _ => true, true, true, false⟩ ⟨[], some "{}"⟩ none).hookRan
          = false ∧
      (Validate ⟨true, false, fun _ => true, true, true, false⟩ ⟨[], some "{}"⟩ none).validateRan
          = false) ∧
    (VErr.validationError = VErr.hookError →
      (Validate ⟨true, false, fun _ => true, true, true, false⟩ ⟨[], some "{}"⟩ none).validateRan
          = false) :=
  validate_failfast _ _ _ VErr.validationError rfl

/-- Claim C1 counterexample: on a body-read fault the function returns before
the deferred close is registered, so the body stream is not closed on that
exit path. -/
theorem validate_not_closed_on_read_fault :
    (Validate ⟨true, false, fun _ => true, true, true, true⟩ ⟨[], none⟩ none).err
        = some VErr.ioError ∧
    (Validate ⟨true, false, fun _ => true, true, true, true⟩ ⟨[], none⟩ none).bodyClosed
        = false :=
  ⟨rfl, rfl⟩

/-- Claim C1 (amended): the body stream is closed before `Validate` returns
exactly on the paths reached after a successful body read (success and the
decode/prepare/hook/rule-validation failures); on the invalid-target and
body-read-fault exits it is not closed, because the deferred close is
registered only after the read succeeds. -/
theorem validate_body_closed (tb : TargetBehavior) (req : HttpRequest) (q0 : Option QMap) :
    (Validate tb req q0).bodyClosed
      = (tb.isPtr && !tb.isNil && req.readResult.isSome) := by
  rcases tb with ⟨isPtr, isNil, uOk, pOk, hOk, rOk⟩
  rcases req with ⟨params, readResult⟩
  rcases readResult with _ | body
  all_goals cases isPtr
  all_goals cases isNil
  all_goals try cases hu : uOk body
  all_goals try cases pOk
  all_goals try cases hOk
  all_goals try cases rOk
  all_goals simp_all [Validate]

theorem qLookup_qInsert_self (m : QMap) (k : String) (v : QueryValue) :
    qLookup (qInsert m k v) k = some v := by
  induction m with
  | nil => simp [qInsert, qLookup]
  | cons p rest ih =>
    rcases p with ⟨k2, v2⟩
    by_cases h : k2 = k <;> simp [qInsert, qLookup, h, ih]

theorem qLookup_qInsert_of_ne (m : QMap) (k j : String) (v : QueryValue) (h : k ≠ j) :
    qLookup (qInsert m k v) j = qLookup m j := by
  induction m with
  | nil => simp [qInsert, qLookup, h]
  | cons p rest ih =>
    rcases p with ⟨k2, v2⟩
    by_cases h2 : k2 = k
    · subst h2; simp [qInsert, qLookup, h]
    · simp [qInsert, qLookup, h2, ih]

theorem qInsert_of_lookup_eq (m : QMap) (k : String) (v : QueryValue)
    (h : qLookup m k = some v) : qInsert m k v = m := by
  induction m with
  | nil => simp [qLookup] at h
  | cons p rest ih =>
    rcases p with ⟨k2, v2⟩
    by_cases hk : k2 = k
    · subst hk
      simp [qLookup] at h
      simp [qInsert, h]
    · simp [qLookup, hk] at h
      simp [qInsert, hk, ih h]

theorem qLookup_applyParams_of_absent (ps : List RawParam) (m : QMap) (k : String)
    (h : ∀ p ∈ ps, p.key ≠ k) :
    qLookup (applyParams ps m) k = qLookup m k := by
  induction ps generalizing m with
  | nil => rfl
  | cons p rest ih =>
    have hp : p.key ≠ k := h p (by simp)
    have hr : ∀ q ∈ rest, q.key ≠ k := fun q hq => h q (by simp [hq])
    show qLookup (applyParams rest (qInsert m p.key (inferValue p.firstValue))) k = qLookup m k
    rw [ih _ hr, qLookup_qInsert_of_ne _ _ _ _ hp]

theorem qLookup_applyParams_self (ps : List RawParam) (m : QMap)
    (hnd : (ps.map RawParam.key).Nodup) :
    ∀ p ∈ ps, qLookup (applyParams ps m) p.key = some (inferValue p.firstValue) := by
  induction ps generalizing m with
  | nil => intro p hp; cases hp
  | cons p0 rest ih =>
    have hnd2 := hnd
    rw [List.map_cons, List.nodup_cons] at hnd2
    intro p hp
    rcases List.mem_cons.mp hp with rfl | hp2
    · have hk : ∀ q ∈ rest, q.key ≠ p.key := by
        intro q hq he
        exact hnd2.1 (he ▸ List.mem_map_of_mem RawParam.key hq)
      show qLookup (applyParams rest (qInsert m p.key (inferValue p.firstValue))) p.key
          = some (inferValue p.firstValue)
      rw [qLookup_applyParams_of_absent _ _ _ hk, qLookup_qInsert_self]
    · exact ih _ hnd2.2 p hp2

theorem applyParams_fixed (ps : List RawParam) (m : QMap)
    (h : ∀ p ∈ ps, qLookup m p.key = some (inferValue p.firstValue)) :
    applyParams ps m = m := by
  induction ps with
  | nil => rfl
  | cons p rest ih =>
    have hm : qInsert m p.key (inferValue p.firstValue) = m :=
      qInsert_of_lookup_eq _ _ _ (h p (by simp))
    show applyParams rest (qInsert m p.key (inferValue p.firstValue)) = m
    rw [hm]
    exact ih (fun q hq => h q (by simp [hq]))

/-- Claim C8: running `ParseQuery` a second time on the same request, starting
from the first run's resulting `Query` map, leaves the map unchanged. The
query keys are pairwise distinct, as `url.Values` is a map. -/
theorem parseQuery_idempotent (q : Option QMap) (req : HttpRequest)
    (hnd : (req.params.map RawParam.key).Nodup) :
    ParseQuery (some (ParseQuery q req)) req = ParseQuery q req := by
  have key : ∀ m0 : QMap,
      applyParams req.params (applyParams req.params m0) = applyParams req.params m0 :=
    fun m0 => applyParams_fixed _ _ (qLookup_applyParams_self _ _ hnd)
  rcases q with _ | m0 <;> exact key _

/-- Witness for C8 at a concrete two-key query. -/
theorem parseQuery_idempotent_witness :
    ParseQuery (some (ParseQuery none ⟨[⟨"a", "1", []⟩, ⟨"b", "x", []⟩], some ""⟩))
        ⟨[⟨"a", "1", []⟩, ⟨"b", "x", []⟩], some ""⟩
      = ParseQuery none ⟨[⟨"a", "1", []⟩, ⟨"b", "x", []⟩], some ""⟩ :=
  parseQuery_idempotent none ⟨[⟨"a", "1", []⟩, ⟨"b", "x", []⟩], some ""⟩ (by decide)

/-- Claim C9: `ParseQuery` merges into the existing `Query` map: a key absent
from the incoming query keeps its prior value, and a nil `Query` map behaves
as the empty map (it is initialized before insertion). -/
theorem parseQuery_merge_frame (m : QMap) (req : HttpRequest) (k : String)
    (h : ∀ p ∈ req.params, p.key ≠ k) :
    qLookup (ParseQuery (some m) req) k = qLookup m k ∧
    ParseQuery none req = ParseQuery (some []) req :=
  ⟨qLookup_applyParams_of_absent _ _ _ h, rfl⟩

/-- Witness for C9 at a concrete pre-populated map. -/
theorem parseQuery_merge_frame_witness :
    qLookup (ParseQuery (some [("k0", QueryValue.int 7)]) ⟨[⟨"a", "1", []⟩], some ""⟩) "k0"
        = qLookup [("k0", QueryValue.int 7)] "k0" ∧
    ParseQuery none ⟨[⟨"a", "1", []⟩], some ""⟩
        = ParseQuery (some []) ⟨[⟨"a", "1", []⟩], some ""⟩ :=
  parseQuery_merge_frame [("k0", QueryValue.int 7)] ⟨[⟨"a", "1", []⟩], some ""⟩ "k0" (by decide)

/-- Claim C4: a raw value parseable both as an integer and as a boolean is
inferred as the integer variant, never the boolean one — the integer check
runs first in the tie-break chain. -/
theorem inferValue_int_wins (v : String) (n : Int) (b : Bool)
    (h1 : goAtoi v = some n) (_h2 : goParseBool v = some b) :
    inferValue v = QueryValue.int n := by
  simp [inferValue, h1]

/-- Witness for C4 at the raw value of one. -/
theorem inferValue_int_wins_witness :
    goAtoi "1" = some 1 ∧ goParseBool "1" = some true ∧ inferValue "1" = QueryValue.int 1 :=
  ⟨by decide, by decide, inferValue_int_wins "1" 1 true (by decide) (by decide)⟩

/-- Claim C5: type inference is total — every raw string yields one of the
four variants, with the string variant carrying the raw value as the
catch-all — and the empty string is inferred as the string variant. -/
theorem inferValue_total :
    (∀ v : String,
      (∃ n, inferValue v = QueryValue.int n) ∨
      (∃ raw, inferValue v = QueryValue.float raw) ∨
      (∃ b, inferValue v = QueryValue.bool b) ∨
      inferValue v = QueryValue.str v) ∧
    inferValue "" = QueryValue.str "" := by
  constructor
  · intro v
    unfold inferValue
    rcases hA : goAtoi v with _ | n
    · by_cases hF : goParseFloatAccepts v = true
      · simp [hF]
      · rcases hB : goParseBool v with _ | b <;> simp [hF, hB]
    · simp
  · decide

/-- Claim C10: the boolean variant is inferred exactly for the ten
non-numeric spellings accepted by `strconv.ParseBool`; its two numeric
spellings parse as integers first. -/
theorem inferValue_bool_iff (v : String) :
    (∃ b, inferValue v = QueryValue.bool b) ↔
      v ∈ (["t", "T", "TRUE", "true", "True",
            "f", "F", "FALSE", "false", "False"] : List String) := by
  constructor
  · rintro ⟨b, h⟩
    unfold inferValue at h
    rcases hA : goAtoi v with _ | n
    · rw [hA] at h
      by_cases hF : goParseFloatAccepts v = true
      · simp [hF] at h
      · rcases hB : goParseBool v with _ | b2
        · simp [hF, hB] at h
        · have hv : v = "1" ∨ v = "t" ∨ v = "T" ∨ v = "TRUE" ∨ v = "true" ∨ v = "True" ∨
              v = "0" ∨ v = "f" ∨ v = "F" ∨ v = "FALSE" ∨ v = "false" ∨ v = "False" := by
            by_contra hc
            push_neg at hc
            obtain ⟨c1, c2, c3, c4, c5, c6, c7, c8, c9, ca, cb, cc⟩ := hc
            simp [goParseBool, c1, c2, c3, c4, c5, c6, c7, c8, c9, ca, cb, cc] at hB
          rcases hv with rfl | rfl | rfl | rfl | rfl | rfl | rfl | rfl | rfl | rfl | rfl | rfl
          · exact absurd hA (by decide)
          · decide
          · decide
          · decide
          · decide
          · decide
          · exact absurd hA (by decide)
          all_goals decide
    · rw [hA] at h
      exact absurd h (by simp)
  · intro h
    fin_cases h
    · exact ⟨true, by decide⟩
    · exact ⟨true, by decide⟩
    · exact ⟨true, by decide⟩
    · exact ⟨true, by decide⟩
    · exact ⟨true, by decide⟩
    · exact ⟨false, by decide⟩
    · exact ⟨false, by decide⟩
    · exact ⟨false, by decide⟩
    · exact ⟨false, by decide⟩
    · exact ⟨false, by decide⟩
